import Mathlib

/-!
Shallow embedding of the spaced-repetition scheduling core of the
personal-learning-platform repository (`src/algorithms/spaced-repetition.ts`,
plus the card (de)serialization helpers of `src/services/storage.ts` and the
`FlashCard` entity of `src/types/flashcard.ts`).

Modelling conventions:
* JavaScript `number` values are modelled as `ℚ` (the algorithm only performs
  exact decimal arithmetic on them); integer-valued fields (`repetitions`,
  `interval`) are modelled as `ℤ`.
* A JavaScript `Date` is modelled as its epoch-millisecond value (`Int := ℤ`);
  calendar-day operations (`setDate`, `setHours(23,59,59,999)`,
  `toDateString`) are modelled on a fixed-offset (DST-free) calendar, so one
  calendar day is exactly `msPerDay` milliseconds and the calendar day of a
  timestamp is its floor-division by `msPerDay`.
* A function that can `throw` is modelled as `Except String _`.
* The implicit clock reads (`new Date()` used as default argument or inside a
  function body) are modelled by an explicit `now : Int` parameter.
-/

open List

/-- Milliseconds in one calendar day (fixed-offset calendar model). -/
def msPerDay : Int := 86400000

/-- `d.setDate(d.getDate() + n)`: advance a timestamp by `n` calendar days. -/
def addDays (t : Int) (n : Int) : Int := t + n * msPerDay

/-- The calendar day of a timestamp (floor division by `msPerDay`); two
timestamps have the same `toDateString()` iff they have the same `dayOf`. -/
def dayOf (t : Int) : Int := t / msPerDay

/-- `d.setHours(23, 59, 59, 999)`: the last millisecond of `t`'s calendar day. -/
def endOfDay (t : Int) : Int := dayOf t * msPerDay + (msPerDay - 1)

/-- `export const SM2_MIN_EASE_FACTOR = 1.3` (spaced-repetition.ts line 3). -/
def SM2_MIN_EASE_FACTOR : ℚ := 1.3

/-- JavaScript `Math.max` on two numbers. -/
def jsMax (a b : ℚ) : ℚ := if a ≤ b then b else a

/-- JavaScript `Math.round`: round half toward positive infinity. -/
def jsRound (x : ℚ) : Int := ⌊x + 1/2⌋

/-- `Math.round(x * 100) / 100`: round to 2 decimal places, half up. -/
def round2 (x : ℚ) : ℚ := (jsRound (x * 100) : ℚ) / 100

deriving instance DecidableEq for Except

/-- The `FlashCard` entity (`src/types/flashcard.ts`). -/
structure FlashCard where
  id : String
  question : String
  answer : String
  tags : List String
  contentSourceId : Option String
  contentTimestamp : Option ℚ
  repetitions : Int
  easeFactor : ℚ
  interval : Int
  lastReviewed : Option Int
  nextReview : Int
  createdAt : Int
  updatedAt : Int
deriving DecidableEq, Repr

/-- The `ReviewResult` interface (spaced-repetition.ts lines 5-10). -/
structure ReviewResult where
  repetitions : Int
  easeFactor : ℚ
  interval : Int
  nextReview : Int
deriving DecidableEq, Repr

/-- `calculateNextReview` (spaced-repetition.ts lines 19-67).  The clock read
`new Date()` at line 58 is the explicit parameter `now`. -/
def calculateNextReview (card : FlashCard) (quality : ℚ) (now : Int) :
    Except String ReviewResult :=
  if quality < 0 ∨ 5 < quality then
    .error "Quality must be between 0 and 5"
  else
    let newEaseFactor :=
      jsMax SM2_MIN_EASE_FACTOR
        (card.easeFactor + (0.1 - (5 - quality) * (0.08 + (5 - quality) * 0.02)))
    let newRepetitions : Int := if quality < 3 then 0 else card.repetitions + 1
    let newInterval : Int :=
      if quality < 3 then 1
      else if card.repetitions + 1 = 1 then 1
      else if card.repetitions + 1 = 2 then 6
      else jsRound ((card.interval : ℚ) * newEaseFactor)
    .ok { repetitions := newRepetitions
          easeFactor := round2 newEaseFactor
          interval := newInterval
          nextReview := addDays now newInterval }

/-- `updateCardAfterReview` (spaced-repetition.ts lines 76-92).  `reviewDate`
is the explicitly supplied review date (line 79); `now` is the clock at
invocation time, used both by `calculateNextReview`'s internal `new Date()`
and by the `updatedAt: new Date()` at line 90. -/
def updateCardAfterReview (card : FlashCard) (quality : ℚ) (reviewDate : Int)
    (now : Int) : Except String FlashCard :=
  (calculateNextReview card quality now).map fun reviewResult =>
    { card with
      repetitions := reviewResult.repetitions
      easeFactor := reviewResult.easeFactor
      interval := reviewResult.interval
      lastReviewed := some reviewDate
      nextReview := reviewResult.nextReview
      updatedAt := now }

/-- The comparator `(a, b) => a.nextReview.getTime() - b.nextReview.getTime()`
used by `getDueCards` and `getCardsByUrgency` (an ascending order on
`nextReview`); JavaScript `Array.prototype.sort` is a stable sort, modelled by
`List.mergeSort`. -/
def cardLE (a b : FlashCard) : Bool := a.nextReview ≤ b.nextReview

/-- `getDueCards` (spaced-repetition.ts lines 100-107). -/
def getDueCards (cards : List FlashCard) (currentDate : Int) : List FlashCard :=
  (cards.filter fun card => card.nextReview ≤ currentDate).mergeSort cardLE

/-- `getDueCardsCount` (spaced-repetition.ts lines 115-120). -/
def getDueCardsCount (cards : List FlashCard) (currentDate : Int) : Nat :=
  (cards.filter fun card => card.nextReview ≤ currentDate).length

/-- The four buckets produced by `getCardsByUrgency`. -/
inductive Urgency where
  | overdue
  | dueToday
  | dueTomorrow
  | upcoming
deriving DecidableEq, Repr

/-- The classification applied to one card by the `forEach` body of
`getCardsByUrgency` (spaced-repetition.ts lines 143-158), with
`today = endOfDay currentDate` (lines 132-133) and
`tomorrow = today + 1 day` (lines 135-136). -/
def urgencyOf (currentDate : Int) (c : FlashCard) : Urgency :=
  let today := endOfDay currentDate
  let tomorrow := addDays today 1
  if c.nextReview < currentDate then
    if dayOf c.nextReview ≠ dayOf currentDate then .overdue else .dueToday
  else if c.nextReview ≤ today then .dueToday
  else if c.nextReview ≤ tomorrow then .dueTomorrow
  else .upcoming

/-- The record returned by `getCardsByUrgency`. -/
structure UrgencyGroups where
  overdue : List FlashCard
  dueToday : List FlashCard
  dueTomorrow : List FlashCard
  upcoming : List FlashCard
deriving DecidableEq, Repr

/-- The `forEach` loop of `getCardsByUrgency`: push each card, in input
order, onto the bucket chosen by `urgencyOf`. -/
def pushUrgency (currentDate : Int) : List FlashCard → UrgencyGroups
  | [] => ⟨[], [], [], []⟩
  | c :: cs =>
    let g := pushUrgency currentDate cs
    match urgencyOf currentDate c with
    | .overdue => { g with overdue := c :: g.overdue }
    | .dueToday => { g with dueToday := c :: g.dueToday }
    | .dueTomorrow => { g with dueTomorrow := c :: g.dueTomorrow }
    | .upcoming => { g with upcoming := c :: g.upcoming }

/-- `getCardsByUrgency` (spaced-repetition.ts lines 128-170): classify every
card, then sort each bucket by `nextReview` (lines 160-169). -/
def getCardsByUrgency (cards : List FlashCard) (currentDate : Int) :
    UrgencyGroups :=
  let g := pushUrgency currentDate cards
  { overdue := g.overdue.mergeSort cardLE
    dueToday := g.dueToday.mergeSort cardLE
    dueTomorrow := g.dueTomorrow.mergeSort cardLE
    upcoming := g.upcoming.mergeSort cardLE }

/-! ### Serialization (`src/services/storage.ts`)

The repository serializes `Date` fields with the platform's
`Date.prototype.toISOString` and parses them back with `new Date(string)`;
those two platform functions are not part of the repository source.
`isoOfTime`/`timeOfIso` below model that codec as a lossless decimal
rendering of the epoch-millisecond value, which is faithful to the
properties the repository relies on: the encoding has millisecond
precision, parsing is its exact left inverse, and an encoded date is never
the empty string (so it is never JavaScript-falsy). -/

/-- The decimal digit character for `d` (`d < 10`). -/
def digitChar (d : Nat) : Char := Char.ofNat (48 + d)

/-- The value of a decimal digit character. -/
def charDigit (c : Char) : Nat := c.toNat - 48

/-- Big-endian decimal digit characters of a natural number. -/
def natChars (n : Nat) : List Char :=
  if n = 0 then ['0'] else ((Nat.digits 10 n).reverse).map digitChar

/-- Parse big-endian decimal digit characters back to a natural number. -/
def parseNat (l : List Char) : Nat :=
  Nat.ofDigits 10 ((l.map charDigit).reverse)

/-- Model of `Date.prototype.toISOString` on an epoch-millisecond timestamp
(see the section comment above). -/
def isoOfTime (t : Int) : String :=
  String.mk (if t < 0 then '-' :: natChars t.natAbs else natChars t.toNat)

/-- Model of `new Date(string)` applied to a string produced by
`isoOfTime`. -/
def timeOfIso (s : String) : Int :=
  match s.data with
  | [] => 0
  | c :: cs => if c = '-' then -(parseNat cs : Int) else (parseNat (c :: cs) : Int)

/-- The JavaScript `x || null` pattern applied to a `string | null` value:
`null` and the empty string (both falsy) become `null`. -/
def jsStringOrNull (s : Option String) : Option String :=
  match s with
  | some str => if str = "" then none else some str
  | none => none

/-- The `SerializedFlashCard` interface (storage.ts lines 10-24). -/
structure SerializedFlashCard where
  id : String
  question : String
  answer : String
  tags : List String
  contentSourceId : Option String
  contentTimestamp : Option ℚ
  repetitions : Int
  easeFactor : ℚ
  interval : Int
  lastReviewed : Option String
  nextReview : String
  createdAt : String
  updatedAt : String
deriving DecidableEq, Repr

/-- `serializeCard` (storage.ts lines 405-413):
`lastReviewed: card.lastReviewed?.toISOString() || null`, the other three
date fields via `toISOString()`, everything else spread unchanged. -/
def serializeCard (card : FlashCard) : SerializedFlashCard :=
  { id := card.id
    question := card.question
    answer := card.answer
    tags := card.tags
    contentSourceId := card.contentSourceId
    contentTimestamp := card.contentTimestamp
    repetitions := card.repetitions
    easeFactor := card.easeFactor
    interval := card.interval
    lastReviewed := jsStringOrNull (card.lastReviewed.map isoOfTime)
    nextReview := isoOfTime card.nextReview
    createdAt := isoOfTime card.createdAt
    updatedAt := isoOfTime card.updatedAt }

/-- `deserializeCard` (storage.ts lines 415-423):
`lastReviewed: data.lastReviewed ? new Date(data.lastReviewed) : null`
(a falsy empty string also yields `null`), the other three date fields via
`new Date(...)`, everything else spread unchanged. -/
def deserializeCard (data : SerializedFlashCard) : FlashCard :=
  { id := data.id
    question := data.question
    answer := data.answer
    tags := data.tags
    contentSourceId := data.contentSourceId
    contentTimestamp := data.contentTimestamp
    repetitions := data.repetitions
    easeFactor := data.easeFactor
    interval := data.interval
    lastReviewed :=
      match data.lastReviewed with
      | some s => if s = "" then none else some (timeOfIso s)
      | none => none
    nextReview := timeOfIso data.nextReview
    createdAt := timeOfIso data.createdAt
    updatedAt := timeOfIso data.updatedAt }

/-- A concrete card with the creation defaults of `createFlashCard`
(`src/types/flashcard.ts` lines 28-47): `repetitions = 0`,
`easeFactor = 2.5`, `interval = 0`, never reviewed, due at creation time. -/
def sampleCard : FlashCard :=
  { id := "card-1", question := "Q", answer := "A", tags := []
    contentSourceId := none, contentTimestamp := none
    repetitions := 0, easeFactor := 5/2, interval := 0
    lastReviewed := none, nextReview := 0, createdAt := 0, updatedAt := 0 }

example :
    calculateNextReview sampleCard 4 0 =
      .ok { repetitions := 1, easeFactor := 5/2, interval := 1,
            nextReview := 86400000 } := by
  norm_num [calculateNextReview, jsMax, round2, jsRound, SM2_MIN_EASE_FACTOR,
    addDays, msPerDay, sampleCard]

example :
    calculateNextReview
      { sampleCard with repetitions := 2, interval := 6, easeFactor := 26/10 }
      4 0 =
      .ok { repetitions := 3, easeFactor := 26/10, interval := 16,
            nextReview := 16 * 86400000 } := by
  norm_num [calculateNextReview, jsMax, round2, jsRound, SM2_MIN_EASE_FACTOR,
    addDays, msPerDay, sampleCard]

example :
    calculateNextReview { sampleCard with easeFactor := 135/100 } 0 0 =
      .ok { repetitions := 0, easeFactor := 13/10, interval := 1,
            nextReview := 86400000 } := by
  norm_num [calculateNextReview, jsMax, round2, jsRound, SM2_MIN_EASE_FACTOR,
    addDays, msPerDay, sampleCard]

example :
    calculateNextReview sampleCard (-1) 0 =
      .error "Quality must be between 0 and 5" := by
  norm_num [calculateNextReview]

/-! ### Helper lemmas -/

lemma jsMax_eq_max (a b : ℚ) : jsMax a b = max a b := by
  simp [jsMax, max_def]

lemma le_jsMax_left (a b : ℚ) : a ≤ jsMax a b := by
  simp only [jsMax]; split
  · assumption
  · exact le_refl a

lemma round2_mono_floor {x : ℚ} (hx : (1.3 : ℚ) ≤ x) : (1.3 : ℚ) ≤ round2 x := by
  have h1 : (130 : ℤ) ≤ ⌊x * 100 + 1/2⌋ := by
    apply Int.le_floor.mpr
    push_cast
    linarith
  have h2 : (130 : ℚ) ≤ (⌊x * 100 + 1/2⌋ : ℚ) := by exact_mod_cast h1
  simp only [round2, jsRound]
  rw [le_div_iff₀ (by norm_num : (0:ℚ) < 100)]
  norm_num
  linarith

/-- The branch-free normal form of `calculateNextReview` on an in-range
quality. -/
lemma calculateNextReview_ok (card : FlashCard) (q : ℚ) (now : Int)
    (hq : ¬ (q < 0 ∨ 5 < q)) :
    calculateNextReview card q now = .ok
      { repetitions := if q < 3 then 0 else card.repetitions + 1
        easeFactor := round2 (jsMax SM2_MIN_EASE_FACTOR
          (card.easeFactor + (0.1 - (5 - q) * (0.08 + (5 - q) * 0.02))))
        interval :=
          if q < 3 then 1
          else if card.repetitions + 1 = 1 then 1
          else if card.repetitions + 1 = 2 then 6
          else jsRound ((card.interval : ℚ) * jsMax SM2_MIN_EASE_FACTOR
            (card.easeFactor + (0.1 - (5 - q) * (0.08 + (5 - q) * 0.02))))
        nextReview := addDays now
          (if q < 3 then 1
           else if card.repetitions + 1 = 1 then 1
           else if card.repetitions + 1 = 2 then 6
           else jsRound ((card.interval : ℚ) * jsMax SM2_MIN_EASE_FACTOR
             (card.easeFactor + (0.1 - (5 - q) * (0.08 + (5 - q) * 0.02))))) } := by
  simp only [calculateNextReview, if_neg hq]

/-! ### Claim theorems -/

/-- C1: for every card state and quality in `[0,5]`, `calculateNextReview`
returns the SM-2 ease factor `max(1.3, easeFactor + 0.1 - (5-q)*(0.08+(5-q)*0.02))`
rounded to two decimals half-up; on `quality < 3` it returns
`repetitions = 0` and `interval = 1` (the ease update still applying); on
`quality >= 3` it increments repetitions and produces interval `1`, `6`, or
`round(interval * newEaseFactor)` (half-up, with the clamped, pre-rounding
ease factor). -/
theorem c1_calculateNextReview (card : FlashCard) (q : ℚ) (now : Int)
    (h0 : 0 ≤ q) (h5 : q ≤ 5) :
    ∃ r, calculateNextReview card q now = .ok r ∧
      r.easeFactor =
        (⌊max 1.3 (card.easeFactor + 0.1 - (5 - q) * (0.08 + (5 - q) * 0.02)) * 100
            + 1/2⌋ : ℚ) / 100 ∧
      (q < 3 → r.repetitions = 0 ∧ r.interval = 1) ∧
      (3 ≤ q → r.repetitions = card.repetitions + 1 ∧
        (card.repetitions + 1 = 1 → r.interval = 1) ∧
        (card.repetitions + 1 = 2 → r.interval = 6) ∧
        (card.repetitions + 1 ≠ 1 → card.repetitions + 1 ≠ 2 →
          r.interval =
            ⌊(card.interval : ℚ) *
                max 1.3 (card.easeFactor + 0.1 - (5 - q) * (0.08 + (5 - q) * 0.02))
                + 1/2⌋)) := by
  have hq : ¬ (q < 0 ∨ 5 < q) := by rintro (h | h) <;> linarith
  have hmax : jsMax SM2_MIN_EASE_FACTOR
        (card.easeFactor + (0.1 - (5 - q) * (0.08 + (5 - q) * 0.02)))
      = max 1.3 (card.easeFactor + 0.1 - (5 - q) * (0.08 + (5 - q) * 0.02)) := by
    rw [jsMax_eq_max, SM2_MIN_EASE_FACTOR]
    ring_nf
  refine ⟨_, calculateNextReview_ok card q now hq, ?_, ?_, ?_⟩
  · simp only [round2, jsRound, hmax]
  · intro h3
    constructor <;> simp only [if_pos h3]
  · intro h3
    have h3' : ¬ q < 3 := not_lt.mpr h3
    refine ⟨by simp only [if_neg h3'], ?_, ?_, ?_⟩
    · intro h1; simp only [if_neg h3', if_pos h1]
    · intro h2
      have h1 : card.repetitions + 1 ≠ 1 := by omega
      simp only [if_neg h3', if_neg h1, if_pos h2]
    · intro h1 h2
      simp only [if_neg h3', if_neg h1, if_neg h2, jsRound, hmax]

theorem c1_witness :
    (0 : ℚ) ≤ 4 ∧ (4 : ℚ) ≤ 5 ∧
      (calculateNextReview sampleCard 4 0).isOk = true := by
  refine ⟨by norm_num, by norm_num, ?_⟩
  obtain ⟨r, hr, -⟩ :=
    c1_calculateNextReview sampleCard 4 0 (by norm_num) (by norm_num)
  rw [hr]
  rfl

/-- C3: the ease factor returned by `calculateNextReview` is at least `1.3`,
including after the final rounding to two decimal places. -/
theorem c3_easeFactor_floor (card : FlashCard) (q : ℚ) (now : Int)
    (r : ReviewResult) (h : calculateNextReview card q now = .ok r) :
    (1.3 : ℚ) ≤ r.easeFactor := by
  by_cases hq : q < 0 ∨ 5 < q
  · simp [calculateNextReview, if_pos hq] at h
  · rw [calculateNextReview_ok card q now hq] at h
    obtain rfl := (Except.ok.inj h).symm
    apply round2_mono_floor
    calc (1.3 : ℚ) = SM2_MIN_EASE_FACTOR := by rw [SM2_MIN_EASE_FACTOR]
    _ ≤ _ := le_jsMax_left _ _

theorem c3_witness :
    (1.3 : ℚ) ≤ (ReviewResult.mk 1 (5/2) 1 86400000).easeFactor :=
  c3_easeFactor_floor sampleCard 4 0 _ (by
    norm_num [calculateNextReview, jsMax, round2, jsRound, SM2_MIN_EASE_FACTOR,
      addDays, msPerDay, sampleCard])

/-- C4: a quality outside `[0,5]` makes `calculateNextReview` fail with the
invalid-quality error and never produce a result; the embedding is a pure
function, so the caller's card value is untouched. -/
theorem c4_invalidQuality (card : FlashCard) (q : ℚ) (now : Int)
    (h : q < 0 ∨ 5 < q) :
    calculateNextReview card q now = .error "Quality must be between 0 and 5" := by
  simp [calculateNextReview, if_pos h]

theorem c4_witness :
    calculateNextReview sampleCard (-1) 0 =
      .error "Quality must be between 0 and 5" :=
  c4_invalidQuality sampleCard (-1) 0 (Or.inl (by norm_num))

/-- The branch-free normal form of `updateCardAfterReview` on an in-range
quality. -/
lemma updateCardAfterReview_ok (card : FlashCard) (q : ℚ)
    (reviewDate now : Int) (hq : ¬ (q < 0 ∨ 5 < q)) :
    ∃ r, calculateNextReview card q now = .ok r ∧
      updateCardAfterReview card q reviewDate now = .ok
        { card with
          repetitions := r.repetitions
          easeFactor := r.easeFactor
          interval := r.interval
          lastReviewed := some reviewDate
          nextReview := r.nextReview
          updatedAt := now } := by
  refine ⟨_, calculateNextReview_ok card q now hq, ?_⟩
  rw [updateCardAfterReview, calculateNextReview_ok card q now hq]
  rfl

/-- C2 counterexample: with the explicitly supplied review date `0` and the
invocation clock one day later, the updated card has `lastReviewed = 0` and
`interval = 1`, but its `nextReview` is two days after epoch — not the
supplied review date plus the interval (`addDays 0 1` = one day). -/
theorem c2_counterexample :
    (updateCardAfterReview sampleCard 4 0 msPerDay).map
        (fun c => (c.nextReview, c.lastReviewed, c.interval)) =
      .ok (2 * msPerDay, some 0, 1) ∧
    (2 * msPerDay : Int) ≠ addDays 0 1 := by
  constructor
  · norm_num [updateCardAfterReview, calculateNextReview, jsMax, round2,
      jsRound, SM2_MIN_EASE_FACTOR, addDays, msPerDay, sampleCard, Except.map]
  · norm_num [addDays, msPerDay]

/-- C2 amended: `nextReview` is computed from the invocation-time clock `now`
(the `new Date()` inside `calculateNextReview`), not from the supplied review
date; so `nextReview = now + interval days` always, and
`nextReview = lastReviewed + interval days` holds exactly when the supplied
review date coincides with the invocation time. -/
theorem c2_nextReview_from_clock (card : FlashCard) (q : ℚ)
    (reviewDate now : Int) (h0 : 0 ≤ q) (h5 : q ≤ 5) :
    ∃ c2, updateCardAfterReview card q reviewDate now = .ok c2 ∧
      c2.nextReview = addDays now c2.interval ∧
      c2.lastReviewed = some reviewDate ∧
      (reviewDate = now →
        ∃ lr, c2.lastReviewed = some lr ∧
          c2.nextReview = addDays lr c2.interval) := by
  have hq : ¬ (q < 0 ∨ 5 < q) := by rintro (h | h) <;> linarith
  obtain ⟨r, hr, hu⟩ := updateCardAfterReview_ok card q reviewDate now hq
  rw [calculateNextReview_ok card q now hq] at hr
  obtain rfl := (Except.ok.inj hr).symm
  refine ⟨_, hu, rfl, rfl, ?_⟩
  rintro rfl
  exact ⟨reviewDate, rfl, rfl⟩

theorem c2_witness :
    (0 : ℚ) ≤ 4 ∧ (4 : ℚ) ≤ 5 ∧
      (updateCardAfterReview sampleCard 4 0 0).isOk = true := by
  refine ⟨by norm_num, by norm_num, ?_⟩
  obtain ⟨c2, hc2, -⟩ :=
    c2_nextReview_from_clock sampleCard 4 0 0 (by norm_num) (by norm_num)
  rw [hc2]
  rfl

/-- C8: `updateCardAfterReview` is pure (its input is a value, never
mutated), and in the returned copy every field other than `repetitions`,
`easeFactor`, `interval`, `lastReviewed`, `nextReview` and `updatedAt` is the
corresponding field of the input card. -/
theorem c8_updateCardAfterReview_frame (card : FlashCard) (q : ℚ)
    (reviewDate now : Int) (h0 : 0 ≤ q) (h5 : q ≤ 5) :
    ∃ c2, updateCardAfterReview card q reviewDate now = .ok c2 ∧
      c2.id = card.id ∧ c2.question = card.question ∧
      c2.answer = card.answer ∧ c2.tags = card.tags ∧
      c2.contentSourceId = card.contentSourceId ∧
      c2.contentTimestamp = card.contentTimestamp ∧
      c2.createdAt = card.createdAt := by
  have hq : ¬ (q < 0 ∨ 5 < q) := by rintro (h | h) <;> linarith
  obtain ⟨r, -, hu⟩ := updateCardAfterReview_ok card q reviewDate now hq
  exact ⟨_, hu, rfl, rfl, rfl, rfl, rfl, rfl, rfl⟩

theorem c8_witness :
    (0 : ℚ) ≤ 4 ∧ (4 : ℚ) ≤ 5 ∧
      (updateCardAfterReview sampleCard 4 0 0).map FlashCard.id = .ok "card-1" := by
  refine ⟨by norm_num, by norm_num, ?_⟩
  obtain ⟨c2, hc2, hid, -⟩ :=
    c8_updateCardAfterReview_frame sampleCard 4 0 0 (by norm_num) (by norm_num)
  rw [hc2, Except.map, hid]
  rfl

lemma cardLE_trans (a b c : FlashCard) (h1 : cardLE a b) (h2 : cardLE b c) :
    cardLE a c := by
  simp only [cardLE, decide_eq_true_eq] at *
  omega

lemma cardLE_total (a b : FlashCard) : cardLE a b || cardLE b a := by
  simp only [cardLE, Bool.or_eq_true, decide_eq_true_eq]
  omega

lemma pairwise_of_forall_mem {α : Type} {R : α → α → Prop} :
    ∀ {l : List α}, (∀ a ∈ l, ∀ b ∈ l, R a b) → l.Pairwise R
  | [], _ => .nil
  | x :: xs, h =>
    .cons (fun y hy => h x (by simp) y (by simp [hy]))
      (pairwise_of_forall_mem fun a ha b hb =>
        h a (by simp [ha]) b (by simp [hb]))

/-- Sorting with the `nextReview` comparator yields a list that is pairwise
non-decreasing in `nextReview`. -/
lemma mergeSort_pairwise (l : List FlashCard) :
    (l.mergeSort cardLE).Pairwise (fun a b => a.nextReview ≤ b.nextReview) := by
  apply List.Pairwise.imp _ (List.sorted_mergeSort cardLE_trans cardLE_total l)
  intro a b hab
  simpa [cardLE, decide_eq_true_eq] using hab

/-- Stability of the sort: the cards with any fixed `nextReview` value appear
in the sorted output exactly as they appear in the input. -/
lemma mergeSort_filter_key (l : List FlashCard) (v : Int) :
    (l.mergeSort cardLE).filter (fun c => c.nextReview = v) =
      l.filter (fun c => c.nextReview = v) := by
  set p : FlashCard → Bool := fun c => decide (c.nextReview = v) with hp
  have hpair : (l.filter p).Pairwise (fun a b => cardLE a b) := by
    apply pairwise_of_forall_mem
    intro a ha b hb
    have ha' := List.of_mem_filter ha
    have hb' := List.of_mem_filter hb
    simp only [hp, decide_eq_true_eq] at ha' hb'
    simp only [cardLE, decide_eq_true_eq]
    omega
  have hsub : l.filter p <+ l.mergeSort cardLE :=
    List.sublist_mergeSort cardLE_trans cardLE_total hpair (List.filter_sublist l)
  have hidem : (l.filter p).filter p = l.filter p := by
    rw [List.filter_filter]
    exact congrFun (congrArg _ (funext fun a => Bool.and_self (p a))) l
  have hsub2 : l.filter p <+ (l.mergeSort cardLE).filter p := by
    have h2 := hsub.filter p
    rwa [hidem] at h2
  have hlen : ((l.mergeSort cardLE).filter p).length = (l.filter p).length :=
    ((List.mergeSort_perm l cardLE).filter p).length_eq
  exact (hsub2.eq_of_length hlen.symm).symm

/-- C5: `getDueCards` returns exactly the cards due at `asOf` (a permutation
of the filtered input), sorted non-decreasingly by `nextReview`, and stably:
cards sharing a `nextReview` value keep their input relative order.  The
embedding is pure, so the input list is not mutated. -/
theorem c5_getDueCards_spec (cards : List FlashCard) (asOf : Int) :
    getDueCards cards asOf ~ cards.filter (fun c => c.nextReview ≤ asOf) ∧
    (getDueCards cards asOf).Pairwise (fun a b => a.nextReview ≤ b.nextReview) ∧
    ∀ v : Int,
      (getDueCards cards asOf).filter (fun c => c.nextReview = v) =
        (cards.filter fun c => c.nextReview ≤ asOf).filter
          (fun c => c.nextReview = v) :=
  ⟨List.mergeSort_perm _ _, mergeSort_pairwise _, fun v => mergeSort_filter_key _ v⟩

/-- C6: `getDueCardsCount` agrees with the length of `getDueCards` on every
input. -/
theorem c6_count_eq_length (cards : List FlashCard) (t : Int) :
    getDueCardsCount cards t = (getDueCards cards t).length := by
  rw [getDueCardsCount, getDueCards, List.length_mergeSort]

lemma urgencyOf_overdue_iff (now : Int) (c : FlashCard) :
    urgencyOf now c = .overdue ↔
      (c.nextReview < now ∧ dayOf c.nextReview < dayOf now) := by
  simp only [urgencyOf, endOfDay, dayOf, addDays, msPerDay]
  split_ifs <;> simp_all <;> try omega

lemma urgencyOf_dueToday_iff (now : Int) (c : FlashCard) :
    urgencyOf now c = .dueToday ↔
      ((c.nextReview < now ∧ dayOf c.nextReview = dayOf now) ∨
        (now ≤ c.nextReview ∧ c.nextReview ≤ endOfDay now)) := by
  simp only [urgencyOf, endOfDay, dayOf, addDays, msPerDay]
  split_ifs <;> simp_all <;> try omega

lemma urgencyOf_dueTomorrow_iff (now : Int) (c : FlashCard) :
    urgencyOf now c = .dueTomorrow ↔
      (endOfDay now < c.nextReview ∧
        c.nextReview ≤ addDays (endOfDay now) 1) := by
  simp only [urgencyOf, endOfDay, dayOf, addDays, msPerDay]
  split_ifs <;> simp_all <;> try omega

lemma urgencyOf_upcoming_iff (now : Int) (c : FlashCard) :
    urgencyOf now c = .upcoming ↔
      addDays (endOfDay now) 1 < c.nextReview := by
  simp only [urgencyOf, endOfDay, dayOf, addDays, msPerDay]
  split_ifs <;> simp_all <;> try omega

lemma pushUrgency_eq_filter (now : Int) (cards : List FlashCard) :
    (pushUrgency now cards).overdue
        = cards.filter (fun c => urgencyOf now c = .overdue) ∧
      (pushUrgency now cards).dueToday
        = cards.filter (fun c => urgencyOf now c = .dueToday) ∧
      (pushUrgency now cards).dueTomorrow
        = cards.filter (fun c => urgencyOf now c = .dueTomorrow) ∧
      (pushUrgency now cards).upcoming
        = cards.filter (fun c => urgencyOf now c = .upcoming) := by
  induction cards with
  | nil => simp [pushUrgency]
  | cons c cs ih =>
    obtain ⟨ih1, ih2, ih3, ih4⟩ := ih
    simp only [pushUrgency, List.filter_cons]
    cases h : urgencyOf now c <;>
      simp [h, ih1, ih2, ih3, ih4]

/-- C7: `getCardsByUrgency` sends a card due strictly before `now` on an
earlier calendar day to `overdue`; a card due strictly before `now` on the
same calendar day, or between `now` and the end of `now`'s calendar day, to
`dueToday`; a card due after the end of today but at or before the end of
tomorrow to `dueTomorrow`; and every other card to `upcoming` — and each
bucket is independently sorted ascending by `nextReview`. -/
theorem c7_getCardsByUrgency_spec (cards : List FlashCard) (now : Int) :
    ((getCardsByUrgency cards now).overdue ~
        cards.filter (fun c =>
          c.nextReview < now ∧ dayOf c.nextReview < dayOf now) ∧
      (getCardsByUrgency cards now).overdue.Pairwise
        (fun a b => a.nextReview ≤ b.nextReview)) ∧
    ((getCardsByUrgency cards now).dueToday ~
        cards.filter (fun c =>
          (c.nextReview < now ∧ dayOf c.nextReview = dayOf now) ∨
            (now ≤ c.nextReview ∧ c.nextReview ≤ endOfDay now)) ∧
      (getCardsByUrgency cards now).dueToday.Pairwise
        (fun a b => a.nextReview ≤ b.nextReview)) ∧
    ((getCardsByUrgency cards now).dueTomorrow ~
        cards.filter (fun c =>
          endOfDay now < c.nextReview ∧
            c.nextReview ≤ addDays (endOfDay now) 1) ∧
      (getCardsByUrgency cards now).dueTomorrow.Pairwise
        (fun a b => a.nextReview ≤ b.nextReview)) ∧
    ((getCardsByUrgency cards now).upcoming ~
        cards.filter (fun c => addDays (endOfDay now) 1 < c.nextReview) ∧
      (getCardsByUrgency cards now).upcoming.Pairwise
        (fun a b => a.nextReview ≤ b.nextReview)) := by
  obtain ⟨h1, h2, h3, h4⟩ := pushUrgency_eq_filter now cards
  have e1 : cards.filter (fun c => urgencyOf now c = .overdue)
      = cards.filter (fun c =>
          c.nextReview < now ∧ dayOf c.nextReview < dayOf now) :=
    List.filter_congr fun c _ =>
      decide_eq_decide.mpr (urgencyOf_overdue_iff now c)
  have e2 : cards.filter (fun c => urgencyOf now c = .dueToday)
      = cards.filter (fun c =>
          (c.nextReview < now ∧ dayOf c.nextReview = dayOf now) ∨
            (now ≤ c.nextReview ∧ c.nextReview ≤ endOfDay now)) :=
    List.filter_congr fun c _ =>
      decide_eq_decide.mpr (urgencyOf_dueToday_iff now c)
  have e3 : cards.filter (fun c => urgencyOf now c = .dueTomorrow)
      = cards.filter (fun c =>
          endOfDay now < c.nextReview ∧
            c.nextReview ≤ addDays (endOfDay now) 1) :=
    List.filter_congr fun c _ =>
      decide_eq_decide.mpr (urgencyOf_dueTomorrow_iff now c)
  have e4 : cards.filter (fun c => urgencyOf now c = .upcoming)
      = cards.filter (fun c => addDays (endOfDay now) 1 < c.nextReview) :=
    List.filter_congr fun c _ =>
      decide_eq_decide.mpr (urgencyOf_upcoming_iff now c)
  simp only [getCardsByUrgency, h1, h2, h3, h4, e1, e2, e3, e4]
  exact ⟨⟨List.mergeSort_perm _ _, mergeSort_pairwise _⟩,
    ⟨List.mergeSort_perm _ _, mergeSort_pairwise _⟩,
    ⟨List.mergeSort_perm _ _, mergeSort_pairwise _⟩,
    ⟨List.mergeSort_perm _ _, mergeSort_pairwise _⟩⟩

lemma charDigit_digitChar : ∀ d, d < 10 → charDigit (digitChar d) = d := by
  decide

lemma digitChar_ne_minus : ∀ d, d < 10 → digitChar d ≠ '-' := by
  decide

lemma parseNat_natChars (n : Nat) : parseNat (natChars n) = n := by
  rw [natChars]
  split
  · subst n
    decide
  · rw [parseNat, List.map_map]
    have hmap : (Nat.digits 10 n).reverse.map (charDigit ∘ digitChar)
        = (Nat.digits 10 n).reverse.map id := by
      apply List.map_congr_left
      intro d hd
      exact charDigit_digitChar d
        (Nat.digits_lt_base (by norm_num) (List.mem_reverse.mp hd))
    rw [hmap, List.map_id, List.reverse_reverse, Nat.ofDigits_digits]

lemma natChars_not_minus (n : Nat) : ∀ x ∈ natChars n, x ≠ '-' := by
  rw [natChars]
  split
  · intro x hx
    simp only [List.mem_singleton] at hx
    subst hx
    decide
  · intro x hx
    obtain ⟨d, hd, rfl⟩ := List.mem_map.mp hx
    exact digitChar_ne_minus d
      (Nat.digits_lt_base (by norm_num) (List.mem_reverse.mp hd))

lemma natChars_ne_nil (n : Nat) : natChars n ≠ [] := by
  rw [natChars]
  split
  · simp
  · simp only [ne_eq, List.map_eq_nil_iff, List.reverse_eq_nil_iff]
    next h => exact Nat.digits_ne_nil_iff_ne_zero.mpr h

lemma timeOfIso_cons (c : Char) (cs : List Char) :
    timeOfIso (String.mk (c :: cs)) =
      if c = '-' then -(parseNat cs : Int) else (parseNat (c :: cs) : Int) :=
  rfl

/-- The modelled codec is lossless: parsing an encoded timestamp returns the
timestamp, exactly (millisecond precision). -/
lemma timeOfIso_isoOfTime (t : Int) : timeOfIso (isoOfTime t) = t := by
  rw [isoOfTime]
  by_cases ht : t < 0
  · rw [if_pos ht, timeOfIso_cons, if_pos rfl, parseNat_natChars]
    omega
  · rw [if_neg ht]
    cases h : natChars t.toNat with
    | nil => exact absurd h (natChars_ne_nil _)
    | cons c cs =>
      rw [timeOfIso_cons,
        if_neg (natChars_not_minus t.toNat c (h ▸ List.mem_cons_self c cs)),
        ← h, parseNat_natChars]
      omega

lemma isoOfTime_ne_empty (t : Int) : isoOfTime t ≠ "" := by
  rw [isoOfTime]
  intro h
  have h2 : (if t < 0 then '-' :: natChars t.natAbs else natChars t.toNat)
      = ([] : List Char) := congrArg String.data h
  split at h2
  · exact absurd h2 (by simp)
  · exact natChars_ne_nil t.toNat h2

/-- C9: serializing a card (dates to strings, `null` `lastReviewed` kept as
an explicit `null`) and deserializing it reproduces the card exactly:
identical `repetitions`, `easeFactor`, `interval`, and identical timestamps
at the codec's millisecond precision. -/
theorem c9_serializeCard_roundtrip (card : FlashCard) :
    deserializeCard (serializeCard card) = card := by
  obtain ⟨cid, cq, ca, ct, cs, cts, cr, cef, civ, clr, cnr, cca, cua⟩ := card
  cases clr with
  | none =>
    simp [serializeCard, deserializeCard, jsStringOrNull, timeOfIso_isoOfTime]
  | some t =>
    simp [serializeCard, deserializeCard, jsStringOrNull, timeOfIso_isoOfTime,
      isoOfTime_ne_empty t]

/-- C10: `calculateNextReview` fails exactly when the quality is below `0` or
above `5`; any rational quality inside `[0,5]`, integer or not, produces a
result (computed by the formulas established in the C1 theorem, which holds
for arbitrary rational qualities in range). -/
theorem c10_error_iff (card : FlashCard) (q : ℚ) (now : Int) :
    (∃ e, calculateNextReview card q now = .error e) ↔ (q < 0 ∨ 5 < q) := by
  by_cases hq : q < 0 ∨ 5 < q
  · simp only [calculateNextReview, if_pos hq]
    exact ⟨fun _ => hq, fun _ => ⟨_, rfl⟩⟩
  · rw [calculateNextReview_ok card q now hq]
    simp [hq]
